import Mathlib

/-!
Verification of the comment-threading and notification-fanout core of the
space-anon backend (`src/server.js`). The Express routes are embedded as pure
Lean functions over an explicit store state; JavaScript truthiness on numeric
ids and on recipient strings is modelled explicitly (`0`/`null` falsy for ids,
`""`/`null` falsy for strings, the latter collapsed to `""`).
-/

namespace SpaceAnon

/-- A row of the `comments` table. `parentId = none` models SQL `NULL`. -/
structure Comment where
  id : Nat
  postId : Nat
  userId : String
  content : String
  parentId : Option Nat
  deriving DecidableEq, Repr

/-- A row of the `posts` table (fields the core logic reads). `likes` is the
inline `TEXT[]` array. -/
structure Post where
  id : Nat
  userId : String
  likes : List String
  deriving DecidableEq, Repr

/-- A row of the `notifications` table (without the serial id / timestamp). -/
structure Notif where
  userId : String
  type : String
  postId : Nat
  commentId : Nat
  deriving DecidableEq, Repr

/-- The store state seen by the comment/notification routes. `commentLikes`
is the `comment_likes` join relation as `(comment_id, userid)` pairs.
`nextCommentId` models the `SERIAL` id generator of `comments`. -/
structure DB where
  posts : List Post
  comments : List Comment
  commentLikes : List (Nat × String)
  notifs : List Notif
  nextCommentId : Nat
  deriving DecidableEq, Repr

/-- JavaScript truthiness of an optional integer id: `null` and `0` are falsy
(`if (parent_id)` and `parent_id || null` in `server.js`). -/
def truthyId : Option Nat → Bool
  | none => false
  | some p => p != 0

/-- The array toggle of `PUT /api/posts/:id/like`:
`likes.includes(userId) ? likes.filter(uid => uid !== userId) : likes.push(userId)`. -/
def postLikeToggle (likes : List String) (userId : String) : List String :=
  if likes.contains userId then likes.filter (fun uid => uid != userId)
  else likes ++ [userId]

/-- The join-relation toggle of `PUT /api/comments/:id/like`: if the pair
`(comment_id, userid)` exists, `DELETE` it; otherwise `INSERT` it. -/
def commentLikeToggle (likes : List (Nat × String)) (cid : Nat) (u : String) :
    List (Nat × String) :=
  if likes.any (fun e => e.1 == cid && e.2 == u) then
    likes.filter (fun e => !(e.1 == cid && e.2 == u))
  else
    likes ++ [(cid, u)]

/-- `SELECT ... FROM posts WHERE id = $1` (first matching row). -/
def findPost (ps : List Post) (id : Nat) : Option Post :=
  ps.find? (fun p => p.id == id)

/-- `SELECT ... FROM comments WHERE id = $1` (first matching row). -/
def findComment (cs : List Comment) (id : Nat) : Option Comment :=
  cs.find? (fun c => c.id == id)

/-- Outcome of `PUT /api/posts/:id/like`. -/
inductive LikeOutcome where
  | notFound
  | ok (p : Post)
  deriving DecidableEq, Repr

/-- `PUT /api/posts/:id/like`: look up the post; 404 when absent; otherwise
toggle the likes array and `UPDATE` the row. -/
def likePost (db : DB) (id : Nat) (userId : String) : DB × LikeOutcome :=
  match findPost db.posts id with
  | none => (db, LikeOutcome.notFound)
  | some p =>
    let newLikes := postLikeToggle p.likes userId
    ({ db with
        posts := db.posts.map (fun q =>
          if q.id == id then { q with likes := newLikes } else q) },
     LikeOutcome.ok { p with likes := newLikes })

/-- The recipient derivation inlined in `POST /api/comments`: on a truthy
`parent_id`, look the parent comment up and notify its author with type
`"reply"` when it differs from the commenter; otherwise look the post up and
notify its author with type `"comment"` when it differs from the commenter.
Returns `(notifyUserId, type)` before the truthiness guard on `notifyUserId`.
The lookups run against the post-insert state, as in the route. -/
def deriveNotify (db : DB) (postid : Nat) (userid : String) (parent : Option Nat) :
    Option (String × String) :=
  if truthyId parent then
    match findComment db.comments (parent.getD 0) with
    | some pc => if pc.userId != userid then some (pc.userId, "reply") else none
    | none => none
  else
    match findPost db.posts postid with
    | some p => if p.userId != userid then some (p.userId, "comment") else none
    | none => none

/-- The comment row inserted by `POST /api/comments`: the stored `parent_id`
is `parent_id || null`, so a falsy request value is stored as `NULL`. -/
def newCommentRow (db : DB) (postid : Nat) (userid content : String)
    (parent : Option Nat) : Comment :=
  { id := db.nextCommentId, postId := postid, userId := userid,
    content := content,
    parentId := if truthyId parent then parent else none }

/-- The `INSERT INTO comments` statement: append the row and advance the
serial id. -/
def insertComment (db : DB) (c : Comment) : DB :=
  { db with comments := db.comments ++ [c],
            nextCommentId := db.nextCommentId + 1 }

/-- The `INSERT INTO notifications` statement. -/
def addNotif (db : DB) (n : Notif) : DB :=
  { db with notifs := db.notifs ++ [n] }

/-- `POST /api/comments`: insert the comment row, derive the recipient, and
when `notifyUserId` is truthy (non-empty, modelling the JS string truthiness
of `if (notifyUserId)`) insert a notification row. `notifFail` injects a store
failure at the notification `INSERT`; the route has no try/catch, so such a
failure propagates and no response body is sent, while the statements already
executed keep their effects. -/
def postComments (db : DB) (postid : Nat) (userid content : String)
    (parent : Option Nat) (notifFail : Bool) : DB × Except String Comment :=
  match deriveNotify (insertComment db (newCommentRow db postid userid content parent))
      postid userid parent with
  | some (r, ty) =>
    if r != "" then
      if notifFail then
        (insertComment db (newCommentRow db postid userid content parent),
         Except.error "store error")
      else
        (addNotif (insertComment db (newCommentRow db postid userid content parent))
          { userId := r, type := ty, postId := postid,
            commentId := (newCommentRow db postid userid content parent).id },
         Except.ok (newCommentRow db postid userid content parent))
    else
      (insertComment db (newCommentRow db postid userid content parent),
       Except.ok (newCommentRow db postid userid content parent))
  | none =>
    (insertComment db (newCommentRow db postid userid content parent),
     Except.ok (newCommentRow db postid userid content parent))

/-- Numeric value of a list of decimal digit characters. -/
def decDigitsVal (l : List Char) : Nat :=
  l.foldl (fun acc c => acc * 10 + (c.toNat - 48)) 0

/-- `parseInt(s, 10)` on an optional query parameter, restricted to the base-10
grammar: skip leading whitespace, read an optional sign, then the longest run
of decimal digits (trailing garbage ignored); `NaN` (here `none`) when no digit
is found or the parameter is absent. -/
def jsParseInt (s : Option String) : Option Int :=
  match s with
  | none => none
  | some str =>
    let cs := str.toList.dropWhile Char.isWhitespace
    let signAndRest : Int × List Char :=
      match cs with
      | '-' :: rest => (-1, rest)
      | '+' :: rest => (1, rest)
      | _ => (1, cs)
    let digits := signAndRest.2.takeWhile Char.isDigit
    if digits.isEmpty then none
    else some (signAndRest.1 * (decDigitsVal digits : Int))

/-- JS `x || d` for a number `x`: `NaN`, `0` and `-0` are falsy. -/
def jsOrNum (v : Option Int) (d : Int) : Int :=
  match v with
  | none => d
  | some n => if n = 0 then d else n

/-- `const limit = parseInt(req.query.limit, 10) || 20` in `GET /api/comments/:postId`. -/
def parseLimit (q : Option String) : Int := jsOrNum (jsParseInt q) 20

/-- `const offset = parseInt(req.query.offset, 10) || 0` in `GET /api/comments/:postId`. -/
def parseOffset (q : Option String) : Int := jsOrNum (jsParseInt q) 0

/-- Ids of a list of comment rows. -/
def commentIds (cs : List Comment) : List Nat :=
  cs.map (fun c => c.id)

/-- One `comments.forEach` step of the unlimited tree build
(`GET /api/comments/unlimited/:postId`): on a truthy `parent_id`, push the
comment into `map[parent_id]?.replies` (the map holds every comment of
`table`, keyed by id; duplicate-id rows share a key, matching the JS
last-seen-wins map only when ids are distinct); otherwise push it onto the
root list. The accumulator is `(tree, replies-of-id)`. -/
def unlimitedStep (table : List Comment)
    (acc : List Comment × (Nat → List Comment)) (c : Comment) :
    List Comment × (Nat → List Comment) :=
  if truthyId c.parentId then
    let p := c.parentId.getD 0
    if (commentIds table).contains p then
      (acc.1, fun q => if q = p then acc.2 q ++ [c] else acc.2 q)
    else acc
  else (acc.1 ++ [c], acc.2)

/-- The unlimited-depth tree build of `GET /api/comments/unlimited/:postId`,
as the final object graph: the root list (`tree`) and, for each comment id,
the `replies` array accumulated on the node with that id. -/
def buildUnlimited (cs : List Comment) : List Comment × (Nat → List Comment) :=
  cs.foldl (unlimitedStep cs) ([], fun _ => [])

/-- One `replies.forEach` step of the one-level build
(`GET /api/comments/:postId`): `if (map[r.parent_id]) map[r.parent_id].replies.push(r)`
where `map` holds the top-level comments keyed by id; a `null` parent indexes
nothing and the reply is skipped. -/
def oneLevelStep (top : List Comment) (m : Nat → List Comment) (r : Comment) :
    Nat → List Comment :=
  match r.parentId with
  | some p =>
    if (commentIds top).contains p then
      fun q => if q = p then m q ++ [r] else m q
    else m
  | none => m

/-- The per-parent reply lists built by `GET /api/comments/:postId`. -/
def attachReplies (top replies : List Comment) : Nat → List Comment :=
  replies.foldl (oneLevelStep top) (fun _ => [])

/-- A serialized comment tree node, as produced by `res.json` on the built
structure. -/
inductive CTree where
  | node (c : Comment) (replies : List CTree)
  deriving Repr

/-- The comment at the root of a tree node. -/
def CTree.root : CTree → Comment
  | .node c _ => c

mutual

/-- Depth of a serialized tree (a childless node has depth 1). -/
def CTree.depth : CTree → Nat
  | .node _ rs => 1 + CTree.depthList rs

/-- Maximal depth among a list of trees. -/
def CTree.depthList : List CTree → Nat
  | [] => 0
  | t :: ts => max (CTree.depth t) (CTree.depthList ts)

end

/-- The response of `GET /api/comments/:postId`: the top-level comments in
order, each carrying its attached replies; a reply row has no `replies` field
of its own, hence serializes as a childless node. -/
def buildOneLevel (top replies : List Comment) : List CTree :=
  top.map (fun c =>
    CTree.node c ((attachReplies top replies c.id).map (fun r => CTree.node r [])))

/-- One round of the recursive CTE of `DELETE /api/comments/:id`: the ids of
comments whose `parent_id` is already in the set. -/
def childIdsOf (cs : List Comment) (s : List Nat) : List Nat :=
  (cs.filter (fun c =>
    match c.parentId with
    | some p => s.contains p
    | none => false)).map (fun c => c.id)

/-- Add the newly reached child ids to the set. -/
def growIds (cs : List Comment) (s : List Nat) : List Nat :=
  s ++ (childIdsOf cs s).filter (fun i => !s.contains i)

/-- Iterate `growIds` a given number of rounds. -/
def closureAux (cs : List Comment) : Nat → List Nat → List Nat
  | 0, s => s
  | n + 1, s => closureAux cs n (growIds cs s)

/-- The id set computed by the recursive CTE `to_delete`: seeded with the ids
of comments whose id equals `root`, closed under the child step; `cs.length`
rounds reach the fixpoint. -/
def subtreeIds (cs : List Comment) (root : Nat) : List Nat :=
  closureAux cs cs.length ((cs.filter (fun c => c.id == root)).map (fun c => c.id))

/-- `DELETE /api/comments/:id`: delete every comment whose id is in the
recursively computed `to_delete` set. -/
def deleteSubtree (cs : List Comment) (root : Nat) : List Comment :=
  cs.filter (fun c => !(subtreeIds cs root).contains c.id)

/-- Transitive reachability along `parentId` chains, the specification-side
reading of the CTE: the root id is reached when a comment with that id exists,
and a comment is reached when its parent id is. -/
inductive ReachesFrom (cs : List Comment) (root : Nat) : Nat → Prop where
  | base (c : Comment) : c ∈ cs → c.id = root → ReachesFrom cs root root
  | step (c : Comment) (p : Nat) : c ∈ cs → c.parentId = some p →
      ReachesFrom cs root p → ReachesFrom cs root c.id

/-- Saturation of an id set under the child step: every comment whose parent
id is in the set has its own id in the set. -/
def SaturatedIds (cs : List Comment) (s : List Nat) : Prop :=
  ∀ c ∈ cs, ∀ p, c.parentId = some p → p ∈ s → c.id ∈ s

/-- Number of distinct comment ids not yet in the set — the termination
measure of the closure iteration. -/
def idsLeft (cs : List Comment) (s : List Nat) : Nat :=
  ((commentIds cs).dedup.filter (fun i => !s.contains i)).length

/-- Sample store used by witnesses. -/
def dbSample : DB :=
  { posts := [{ id := 1, userId := "alice", likes := ["bob"] }],
    comments := [], commentLikes := [], notifs := [], nextCommentId := 1 }

/-- Sample thread used by witnesses: a root, a child of the root, and an
orphan whose declared parent id 9 matches no comment. -/
def threadSample : List Comment :=
  [{ id := 1, postId := 1, userId := "a", content := "root", parentId := none },
   { id := 2, postId := 1, userId := "b", content := "child", parentId := some 1 },
   { id := 3, postId := 1, userId := "d", content := "orphan", parentId := some 9 }]

/-! ## Helper lemmas -/

theorem postLikeToggle_of_mem {l : List String} {u : String} (h : u ∈ l) :
    postLikeToggle l u = l.filter (fun v => v != u) := by
  simp [postLikeToggle, List.contains, h]

theorem postLikeToggle_of_not_mem {l : List String} {u : String} (h : u ∉ l) :
    postLikeToggle l u = l ++ [u] := by
  simp [postLikeToggle, List.contains, h]

theorem commentLike_any_iff {cl : List (Nat × String)} {cid : Nat} {u : String} :
    (cl.any (fun e => e.1 == cid && e.2 == u) = true) ↔ (cid, u) ∈ cl := by
  simp only [List.any_eq_true, Bool.and_eq_true, beq_iff_eq]
  constructor
  · rintro ⟨⟨a, b⟩, he, h1, h2⟩
    cases h1; cases h2; exact he
  · intro h
    exact ⟨(cid, u), h, rfl, rfl⟩

theorem commentLikeToggle_of_mem {cl : List (Nat × String)} {cid : Nat}
    {u : String} (h : (cid, u) ∈ cl) :
    commentLikeToggle cl cid u = cl.filter (fun e => !(e.1 == cid && e.2 == u)) := by
  rw [commentLikeToggle, if_pos (commentLike_any_iff.mpr h)]

theorem commentLikeToggle_of_not_mem {cl : List (Nat × String)} {cid : Nat}
    {u : String} (h : (cid, u) ∉ cl) :
    commentLikeToggle cl cid u = cl ++ [(cid, u)] := by
  rw [commentLikeToggle, if_neg]
  intro hc
  exact h (commentLike_any_iff.mp hc)

/-! ## C3: the like toggle is an involution at the membership level -/

/-- C3: for both the array-encoded post-like toggle and the join-relation
comment-like toggle, toggling the same user twice restores the original
membership. -/
theorem likeToggle_membership_involutive :
    (∀ (l : List String) (u x : String),
        x ∈ postLikeToggle (postLikeToggle l u) u ↔ x ∈ l) ∧
    (∀ (cl : List (Nat × String)) (cid : Nat) (u : String) (e : Nat × String),
        e ∈ commentLikeToggle (commentLikeToggle cl cid u) cid u ↔ e ∈ cl) := by
  constructor
  · intro l u x
    by_cases hu : u ∈ l
    · rw [postLikeToggle_of_mem hu,
        postLikeToggle_of_not_mem (by simp [List.mem_filter])]
      by_cases hx : x = u
      · subst hx; simp [hu]
      · simp [List.mem_filter, hx]
    · rw [postLikeToggle_of_not_mem hu,
        postLikeToggle_of_mem (by simp)]
      by_cases hx : x = u
      · subst hx; simp [hu]
      · simp [List.mem_filter, List.mem_append, hx]
  · intro cl cid u e
    by_cases hu : (cid, u) ∈ cl
    · rw [commentLikeToggle_of_mem hu,
        commentLikeToggle_of_not_mem (by simp [List.mem_filter])]
      by_cases he : e = (cid, u)
      · subst he; simp [hu]
      · have h12 : ¬(e.1 = cid ∧ e.2 = u) := by
          intro ⟨h1, h2⟩
          exact he (Prod.ext h1 h2)
        simp [List.mem_filter, List.mem_append, he]
        exact fun _ => not_and_or.mp h12
    · rw [commentLikeToggle_of_not_mem hu,
        commentLikeToggle_of_mem (by simp)]
      by_cases he : e = (cid, u)
      · subst he; simp [hu]
      · have h12 : ¬(e.1 = cid ∧ e.2 = u) := by
          intro ⟨h1, h2⟩
          exact he (Prod.ext h1 h2)
        simp [List.mem_filter, List.mem_append, he]
        exact fun _ => not_and_or.mp h12

/-! ## C9: liking a nonexistent post is a 404 that leaves the store unchanged -/

/-- C9: when no post has the requested id, `PUT /api/posts/:id/like` returns
404 and the store is returned unmodified (no likes array is written). -/
theorem likePost_missing_post_notFound (db : DB) (id : Nat) (u : String)
    (h : ∀ p ∈ db.posts, p.id ≠ id) :
    likePost db id u = (db, LikeOutcome.notFound) := by
  have hf : findPost db.posts id = none := by
    rw [findPost, List.find?_eq_none]
    intro p hp
    simpa using h p hp
  simp [likePost, hf]

theorem likePost_missing_post_notFound_witness :
    likePost dbSample 2 "bob" = (dbSample, LikeOutcome.notFound) :=
  likePost_missing_post_notFound dbSample 2 "bob" (by decide)

/-! ## C10: frame effect of the array-encoded post-like toggle -/

/-- C10: on an existing post, the array toggle removes every occurrence of the
user (keeping the other entries in relative order, as a sublist with all other
counts preserved) when the user is a member, and appends the user at the end
(leaving the existing entries untouched) when not; the route writes exactly
the toggled array back to the found post. -/
theorem postLikeToggle_frame (db : DB) (id : Nat) (p : Post) (u : String)
    (hp : findPost db.posts id = some p) :
    (u ∈ p.likes →
        u ∉ postLikeToggle p.likes u ∧
        List.Sublist (postLikeToggle p.likes u) p.likes ∧
        (∀ v, v ≠ u → (postLikeToggle p.likes u).count v = p.likes.count v)) ∧
    (u ∉ p.likes → postLikeToggle p.likes u = p.likes ++ [u]) ∧
    (likePost db id u).2 = LikeOutcome.ok { p with likes := postLikeToggle p.likes u } := by
  refine ⟨fun hu => ?_, fun hu => postLikeToggle_of_not_mem hu, ?_⟩
  · rw [postLikeToggle_of_mem hu]
    refine ⟨by simp [List.mem_filter], List.filter_sublist _, fun v hv => ?_⟩
    exact List.count_filter (by simp [hv])
  · simp [likePost, hp]

theorem postLikeToggle_frame_witness :
    postLikeToggle ["bob"] "carol" = ["bob", "carol"] :=
  (postLikeToggle_frame dbSample 1 { id := 1, userId := "alice", likes := ["bob"] }
    "carol" (by decide)).2.1 (by decide)

/-! ## C7: limit/offset parsing of the paginated thread fetch -/

/-- C7 counterexample: the claim says every supplied value is coerced to a
non-negative integer; in fact `parseInt(s,10) || 20` passes negative values
through unchanged, and a supplied `"0"` falls back to the default 20 because
`0` is falsy. -/
theorem pagination_coercion_counterexample :
    parseLimit (some "-5") = -5 ∧ parseLimit (some "-5") < 0 ∧
    parseLimit (some "0") = 20 ∧ parseOffset (some "-5") = -5 := by
  decide

/-- C7 amended: `limit`/`offset` default to 20/0 when the parameter is absent
or does not parse to a number, and also when it parses to `0` (falsy); any
other parsed value, including negative ones, is used as-is with no
non-negative coercion. -/
theorem pagination_defaults_amended :
    (parseLimit none = 20 ∧ parseOffset none = 0) ∧
    (∀ s, jsParseInt (some s) = none →
        parseLimit (some s) = 20 ∧ parseOffset (some s) = 0) ∧
    (∀ s, jsParseInt (some s) = some 0 →
        parseLimit (some s) = 20 ∧ parseOffset (some s) = 0) ∧
    (∀ s n, jsParseInt (some s) = some n → n ≠ 0 →
        parseLimit (some s) = n ∧ parseOffset (some s) = n) := by
  refine ⟨⟨rfl, rfl⟩, fun s hs => ?_, fun s hs => ?_, fun s n hs hn => ?_⟩
  · simp [parseLimit, parseOffset, jsOrNum, hs]
  · simp [parseLimit, parseOffset, jsOrNum, hs]
  · simp [parseLimit, parseOffset, jsOrNum, hs, hn]

theorem pagination_defaults_amended_witness :
    parseLimit (some "abc") = 20 ∧ parseOffset (some "17") = 17 :=
  ⟨(pagination_defaults_amended.2.1 "abc" (by decide)).1,
   (pagination_defaults_amended.2.2.2 "17" 17 (by decide) (by decide)).2⟩

/-! ## POST /api/comments case analysis -/

theorem postComments_of_deriveNone {db : DB} {postid : Nat}
    {userid content : String} {parent : Option Nat} (nf : Bool)
    (h : deriveNotify (insertComment db (newCommentRow db postid userid content parent))
        postid userid parent = none) :
    postComments db postid userid content parent nf =
      (insertComment db (newCommentRow db postid userid content parent),
       Except.ok (newCommentRow db postid userid content parent)) := by
  unfold postComments
  rw [h]

theorem postComments_of_deriveEmpty {db : DB} {postid : Nat}
    {userid content : String} {parent : Option Nat} (nf : Bool) {r ty : String}
    (h : deriveNotify (insertComment db (newCommentRow db postid userid content parent))
        postid userid parent = some (r, ty)) (hr : r = "") :
    postComments db postid userid content parent nf =
      (insertComment db (newCommentRow db postid userid content parent),
       Except.ok (newCommentRow db postid userid content parent)) := by
  unfold postComments
  rw [h]
  simp [hr]

theorem postComments_of_deriveSome_ok {db : DB} {postid : Nat}
    {userid content : String} {parent : Option Nat} {r ty : String}
    (h : deriveNotify (insertComment db (newCommentRow db postid userid content parent))
        postid userid parent = some (r, ty)) (hr : r ≠ "") :
    postComments db postid userid content parent false =
      (addNotif (insertComment db (newCommentRow db postid userid content parent))
        { userId := r, type := ty, postId := postid, commentId := db.nextCommentId },
       Except.ok (newCommentRow db postid userid content parent)) := by
  unfold postComments
  rw [h]
  simp [hr]
  rfl

theorem postComments_of_deriveSome_fail {db : DB} {postid : Nat}
    {userid content : String} {parent : Option Nat} {r ty : String}
    (h : deriveNotify (insertComment db (newCommentRow db postid userid content parent))
        postid userid parent = some (r, ty)) (hr : r ≠ "") :
    postComments db postid userid content parent true =
      (insertComment db (newCommentRow db postid userid content parent),
       Except.error "store error") := by
  unfold postComments
  rw [h]
  simp [hr]

/-! ## C1: reply notifications -/

/-- C1 counterexample: the parent comment exists and its author `""` differs
from the commenter `"u"`, yet no notification row is inserted, because the
route's `if (notifyUserId)` guard treats the empty-string recipient as falsy. -/
theorem replyNotify_counterexample :
    (postComments
      { posts := [], commentLikes := [], notifs := [], nextCommentId := 2,
        comments := [{ id := 1, postId := 1, userId := "", content := "x",
                       parentId := none }] }
      1 "u" "hi" (some 1) false).1.notifs = [] ∧
    findComment [{ id := 1, postId := 1, userId := "", content := "x",
                   parentId := none }] 1 =
      some { id := 1, postId := 1, userId := "", content := "x",
             parentId := none } ∧
    ("" : String) ≠ "u" := by
  refine ⟨rfl, rfl, by decide⟩

/-- C1 amended: for a comment created with truthy `parent_id = p`, no
notification row is inserted iff the parent lookup fails, or the parent's
author equals the commenter, or the parent's author is the empty string
(falsy recipient); otherwise exactly one notification row is appended, for
the parent's author with type `"reply"`. -/
theorem replyNotify_amended (db : DB) (postid : Nat) (userid content : String)
    (p : Nat) (hp : p ≠ 0) :
    ((postComments db postid userid content (some p) false).1.notifs = db.notifs ↔
      (findComment db.comments p = none ∨
       ∃ c, findComment db.comments p = some c ∧
         (c.userId = userid ∨ c.userId = ""))) ∧
    (∀ c, findComment db.comments p = some c → c.userId ≠ userid →
      c.userId ≠ "" →
      (postComments db postid userid content (some p) false).1.notifs =
        db.notifs ++ [{ userId := c.userId, type := "reply", postId := postid,
                        commentId := db.nextCommentId }]) := by
  have htr : truthyId (some p) = true := by simp [truthyId, hp]
  have hcomm :
      (insertComment db (newCommentRow db postid userid content (some p))).comments
        = db.comments ++ [newCommentRow db postid userid content (some p)] := rfl
  cases hfind : findComment db.comments p with
  | some c =>
    have hfind1 :
        findComment
          (insertComment db (newCommentRow db postid userid content (some p))).comments p
          = some c := by
      rw [hcomm, findComment, List.find?_append]
      rw [findComment] at hfind
      rw [hfind]
      rfl
    have hder :
        deriveNotify (insertComment db (newCommentRow db postid userid content (some p)))
          postid userid (some p)
          = if c.userId != userid then some (c.userId, "reply") else none := by
      rw [deriveNotify, if_pos htr, Option.getD_some, hfind1]
    by_cases hcu : c.userId = userid
    · have hder2 :
          deriveNotify (insertComment db (newCommentRow db postid userid content (some p)))
            postid userid (some p) = none := by
        rw [hder, hcu]
        simp
      rw [postComments_of_deriveNone false hder2]
      refine ⟨⟨fun _ => Or.inr ⟨c, rfl, Or.inl hcu⟩, fun _ => rfl⟩, ?_⟩
      intro c' h1 h2 _h3
      cases h1
      exact absurd hcu h2
    · have hder2 :
          deriveNotify (insertComment db (newCommentRow db postid userid content (some p)))
            postid userid (some p) = some (c.userId, "reply") := by
        rw [hder]
        simp [hcu]
      by_cases hce : c.userId = ""
      · rw [postComments_of_deriveEmpty false hder2 hce]
        refine ⟨⟨fun _ => Or.inr ⟨c, rfl, Or.inr hce⟩, fun _ => rfl⟩, ?_⟩
        intro c' h1 _h2 h3
        cases h1
        exact absurd hce h3
      · rw [postComments_of_deriveSome_ok hder2 hce]
        constructor
        · refine iff_of_false ?_ ?_
          · intro h
            have := congrArg List.length h
            simp [addNotif, insertComment] at this
          · rintro (h | ⟨c', h1, hor⟩)
            · cases h
            · cases h1
              rcases hor with h | h
              · exact hcu h
              · exact hce h
        · intro c' h1 _h2 _h3
          cases h1
          rfl
  | none =>
    have hfind1 :
        findComment
          (insertComment db (newCommentRow db postid userid content (some p))).comments p
          = findComment [newCommentRow db postid userid content (some p)] p := by
      rw [hcomm, findComment, List.find?_append]
      rw [findComment] at hfind
      rw [hfind]
      rfl
    have hder2 :
        deriveNotify (insertComment db (newCommentRow db postid userid content (some p)))
          postid userid (some p) = none := by
      rw [deriveNotify, if_pos htr, Option.getD_some, hfind1]
      rw [findComment, List.find?_singleton]
      by_cases hq : db.nextCommentId = p
      · simp [newCommentRow, hq]
      · simp [newCommentRow, hq]
    rw [postComments_of_deriveNone false hder2]
    refine ⟨⟨fun _ => Or.inl rfl, fun _ => rfl⟩, ?_⟩
    intro c' h1 _h2 _h3
    cases h1

theorem replyNotify_amended_witness :
    (postComments
      { posts := [], commentLikes := [], notifs := [], nextCommentId := 2,
        comments := [{ id := 1, postId := 1, userId := "alice", content := "x",
                       parentId := none }] }
      1 "bob" "hi" (some 1) false).1.notifs =
      [{ userId := "alice", type := "reply", postId := 1, commentId := 2 }] := by
  have h := (replyNotify_amended
    { posts := [], commentLikes := [], notifs := [], nextCommentId := 2,
      comments := [{ id := 1, postId := 1, userId := "alice", content := "x",
                     parentId := none }] }
    1 "bob" "hi" 1 (by decide)).2
    { id := 1, postId := 1, userId := "alice", content := "x", parentId := none }
    rfl (by decide) (by decide)
  simpa using h

/-! ## C2: top-level comment notifications -/

/-- C2 counterexample: the post exists and its author `""` differs from the
commenter `"u"`, yet no notification row is inserted, because the route's
`if (notifyUserId)` guard treats the empty-string recipient as falsy. -/
theorem topNotify_counterexample :
    (postComments
      { posts := [{ id := 1, userId := "", likes := [] }],
        comments := [], commentLikes := [], notifs := [], nextCommentId := 1 }
      1 "u" "hi" none false).1.notifs = [] ∧
    findPost [{ id := 1, userId := "", likes := [] }] 1 =
      some { id := 1, userId := "", likes := [] } ∧
    ("" : String) ≠ "u" :=
  ⟨rfl, rfl, by decide⟩

/-- C2 amended: for a comment created with falsy `parent_id` (stored as
`NULL`), no notification row is inserted iff the post lookup fails, or the
post's author equals the commenter, or the post's author is the empty string
(falsy recipient); otherwise exactly one notification row is appended, for
the post's author with type `"comment"`. -/
theorem topNotify_amended (db : DB) (postid : Nat) (userid content : String)
    (parent : Option Nat) (htr : truthyId parent = false) :
    ((postComments db postid userid content parent false).1.notifs = db.notifs ↔
      (findPost db.posts postid = none ∨
       ∃ q, findPost db.posts postid = some q ∧
         (q.userId = userid ∨ q.userId = ""))) ∧
    (∀ q, findPost db.posts postid = some q → q.userId ≠ userid →
      q.userId ≠ "" →
      (postComments db postid userid content parent false).1.notifs =
        db.notifs ++ [{ userId := q.userId, type := "comment", postId := postid,
                        commentId := db.nextCommentId }]) := by
  have hposts :
      (insertComment db (newCommentRow db postid userid content parent)).posts
        = db.posts := rfl
  have hntr : ¬(truthyId parent = true) := by simp [htr]
  cases hfind : findPost db.posts postid with
  | some q =>
    have hder :
        deriveNotify (insertComment db (newCommentRow db postid userid content parent))
          postid userid parent
          = if q.userId != userid then some (q.userId, "comment") else none := by
      rw [deriveNotify, if_neg hntr, hposts, hfind]
    by_cases hqu : q.userId = userid
    · have hder2 :
          deriveNotify (insertComment db (newCommentRow db postid userid content parent))
            postid userid parent = none := by
        rw [hder, hqu]
        simp
      rw [postComments_of_deriveNone false hder2]
      refine ⟨⟨fun _ => Or.inr ⟨q, rfl, Or.inl hqu⟩, fun _ => rfl⟩, ?_⟩
      intro q' h1 h2 _h3
      cases h1
      exact absurd hqu h2
    · have hder2 :
          deriveNotify (insertComment db (newCommentRow db postid userid content parent))
            postid userid parent = some (q.userId, "comment") := by
        rw [hder]
        simp [hqu]
      by_cases hqe : q.userId = ""
      · rw [postComments_of_deriveEmpty false hder2 hqe]
        refine ⟨⟨fun _ => Or.inr ⟨q, rfl, Or.inr hqe⟩, fun _ => rfl⟩, ?_⟩
        intro q' h1 _h2 h3
        cases h1
        exact absurd hqe h3
      · rw [postComments_of_deriveSome_ok hder2 hqe]
        constructor
        · refine iff_of_false ?_ ?_
          · intro h
            have := congrArg List.length h
            simp [addNotif, insertComment] at this
          · rintro (h | ⟨q', h1, hor⟩)
            · cases h
            · cases h1
              rcases hor with h | h
              · exact hqu h
              · exact hqe h
        · intro q' h1 _h2 _h3
          cases h1
          rfl
  | none =>
    have hder2 :
        deriveNotify (insertComment db (newCommentRow db postid userid content parent))
          postid userid parent = none := by
      rw [deriveNotify, if_neg hntr, hposts, hfind]
    rw [postComments_of_deriveNone false hder2]
    refine ⟨⟨fun _ => Or.inl rfl, fun _ => rfl⟩, ?_⟩
    intro q' h1 _h2 _h3
    cases h1

theorem topNotify_amended_witness :
    (postComments
      { posts := [{ id := 1, userId := "alice", likes := [] }],
        comments := [], commentLikes := [], notifs := [], nextCommentId := 1 }
      1 "bob" "hi" none false).1.notifs =
      [{ userId := "alice", type := "comment", postId := 1, commentId := 1 }] := by
  have h := (topNotify_amended
    { posts := [{ id := 1, userId := "alice", likes := [] }],
      comments := [], commentLikes := [], notifs := [], nextCommentId := 1 }
    1 "bob" "hi" none (by decide)).2
    { id := 1, userId := "alice", likes := [] } rfl (by decide) (by decide)
  simpa using h

/-! ## C8: comment creation versus notification failure -/

/-- C8 counterexample: with a failing notification `INSERT`, the comment row
is persisted (no rollback) but the route errors out instead of returning the
created comment, because `POST /api/comments` has no try/catch around the
notification step. -/
theorem createComment_notifFailure_counterexample :
    (postComments
      { posts := [{ id := 1, userId := "alice", likes := [] }],
        comments := [], commentLikes := [], notifs := [], nextCommentId := 1 }
      1 "u" "hi" none true).2 = Except.error "store error" ∧
    ({ id := 1, postId := 1, userId := "u", content := "hi", parentId := none } :
      Comment) ∈
      (postComments
        { posts := [{ id := 1, userId := "alice", likes := [] }],
          comments := [], commentLikes := [], notifs := [], nextCommentId := 1 }
        1 "u" "hi" none true).1.comments := by
  refine ⟨rfl, ?_⟩
  simp [postComments, deriveNotify, insertComment, newCommentRow, findPost,
    truthyId, addNotif]

/-- C8 amended: the comment insertion is never rolled back — the created row
is in the store after the route finishes, whatever the notification outcome —
and whenever the notification step does not fail, the created comment is
returned; a notification store failure, however, propagates instead of
returning the created comment. -/
theorem createComment_best_effort :
    (∀ (db : DB) (postid : Nat) (userid content : String)
        (parent : Option Nat) (nf : Bool),
      (postComments db postid userid content parent nf).1.comments =
        db.comments ++ [newCommentRow db postid userid content parent]) ∧
    (∀ (db : DB) (postid : Nat) (userid content : String) (parent : Option Nat),
      (postComments db postid userid content parent false).2 =
        Except.ok (newCommentRow db postid userid content parent)) := by
  constructor
  · intro db postid userid content parent nf
    cases hd : deriveNotify (insertComment db (newCommentRow db postid userid content parent))
        postid userid parent with
    | none => rw [postComments_of_deriveNone nf hd]; rfl
    | some v =>
      obtain ⟨r, ty⟩ := v
      by_cases hr : r = ""
      · rw [postComments_of_deriveEmpty nf hd hr]; rfl
      · cases nf with
        | false => rw [postComments_of_deriveSome_ok hd hr]; rfl
        | true => rw [postComments_of_deriveSome_fail hd hr]; rfl
  · intro db postid userid content parent
    cases hd : deriveNotify (insertComment db (newCommentRow db postid userid content parent))
        postid userid parent with
    | none => rw [postComments_of_deriveNone false hd]
    | some v =>
      obtain ⟨r, ty⟩ := v
      by_cases hr : r = ""
      · rw [postComments_of_deriveEmpty false hd hr]
      · rw [postComments_of_deriveSome_ok hd hr]

/-! ## C5: the unlimited-depth tree build -/

theorem unlimited_fold_roots (table : List Comment) :
    ∀ (l : List Comment) (acc : List Comment × (Nat → List Comment)),
      (l.foldl (unlimitedStep table) acc).1 =
        acc.1 ++ l.filter (fun c => !truthyId c.parentId) := by
  intro l
  induction l with
  | nil => intro acc; simp
  | cons c l ih =>
    intro acc
    rw [List.foldl_cons, ih]
    by_cases hc : truthyId c.parentId
    · by_cases hm : c.parentId.getD 0 ∈ commentIds table
      · simp [unlimitedStep, hc, hm, List.filter_cons]
      · simp [unlimitedStep, hc, hm, List.filter_cons]
    · simp [unlimitedStep, hc, List.filter_cons]

theorem unlimited_fold_replies (table : List Comment) :
    ∀ (l : List Comment) (acc : List Comment × (Nat → List Comment)) (q : Nat),
      (l.foldl (unlimitedStep table) acc).2 q =
        acc.2 q ++ l.filter (fun c =>
          truthyId c.parentId &&
          (commentIds table).contains (c.parentId.getD 0) &&
          (c.parentId.getD 0 == q)) := by
  intro l
  induction l with
  | nil => intro acc q; simp
  | cons c l ih =>
    intro acc q
    rw [List.foldl_cons, ih]
    by_cases hc : truthyId c.parentId
    · by_cases hm : c.parentId.getD 0 ∈ commentIds table
      · by_cases hq : q = c.parentId.getD 0
        · simp [unlimitedStep, hc, hm, List.filter_cons, hq]
        · simp [unlimitedStep, hc, hm, List.filter_cons, hq, Ne.symm hq]
      · simp [unlimitedStep, hc, hm, List.filter_cons]
    · simp [unlimitedStep, hc, List.filter_cons]

/-- C5: the unlimited tree build makes every `parentId = null` comment a
forest root (in input order); a comment with non-null `parentId` is appended
to the replies of the node carrying its parent id exactly when that id occurs
in the input (in input order within each parent), and an orphan — a comment
whose parent id occurs nowhere — appears neither among the roots nor in any
replies list. -/
theorem buildUnlimited_spec (cs : List Comment)
    (h0 : ∀ c ∈ cs, c.parentId ≠ some 0)
    (_huniq : (commentIds cs).Nodup) :
    (buildUnlimited cs).1 = cs.filter (fun c => c.parentId == none) ∧
    (∀ q, (buildUnlimited cs).2 q =
      if (commentIds cs).contains q then
        cs.filter (fun c => c.parentId == some q)
      else []) ∧
    (∀ c ∈ cs, ∀ p, c.parentId = some p →
      (commentIds cs).contains p = false →
      c ∉ (buildUnlimited cs).1 ∧ ∀ q, c ∉ (buildUnlimited cs).2 q) := by
  have ha : (buildUnlimited cs).1 = cs.filter (fun c => c.parentId == none) := by
    rw [buildUnlimited, unlimited_fold_roots]
    rw [List.nil_append]
    apply List.filter_congr
    intro c hc
    cases hcp : c.parentId with
    | none => simp [truthyId]
    | some p =>
      have hp : p ≠ 0 := by
        intro h
        exact h0 c hc (by rw [hcp, h])
      simp [truthyId, hp]
  have hb : ∀ q, (buildUnlimited cs).2 q =
      if (commentIds cs).contains q then
        cs.filter (fun c => c.parentId == some q)
      else [] := by
    intro q
    rw [buildUnlimited, unlimited_fold_replies]
    rw [List.nil_append]
    by_cases hq : (commentIds cs).contains q
    · rw [if_pos hq]
      apply List.filter_congr
      intro c hc
      cases hcp : c.parentId with
      | none => simp [truthyId]
      | some p =>
        have hp : p ≠ 0 := by
          intro h
          exact h0 c hc (by rw [hcp, h])
        have hq' : q ∈ commentIds cs := by simpa [List.contains] using hq
        by_cases hpq : p = q
        · subst hpq
          simp [truthyId, hp, hq']
        · simp [truthyId, hp, hpq]
    · rw [if_neg hq]
      rw [List.filter_eq_nil_iff]
      intro c _hc hcontra
      simp only [Bool.and_eq_true, beq_iff_eq] at hcontra
      obtain ⟨⟨_, hcont⟩, hpq⟩ := hcontra
      rw [hpq] at hcont
      exact hq hcont
  refine ⟨ha, hb, ?_⟩
  intro c hc p hcp hcont
  constructor
  · intro hmem
    rw [ha] at hmem
    rw [List.mem_filter] at hmem
    rw [hcp] at hmem
    simp at hmem
  · intro q hmem
    rw [hb q] at hmem
    by_cases hq : (commentIds cs).contains q
    · rw [if_pos hq] at hmem
      rw [List.mem_filter] at hmem
      obtain ⟨_, hpq⟩ := hmem
      rw [hcp] at hpq
      simp only [beq_iff_eq, Option.some.injEq] at hpq
      rw [hpq] at hcont
      rw [hq] at hcont
      cases hcont
    · rw [if_neg hq] at hmem
      cases hmem

theorem buildUnlimited_spec_witness :
    (buildUnlimited threadSample).1 =
      [{ id := 1, postId := 1, userId := "a", content := "root",
         parentId := none }] := by
  have h := (buildUnlimited_spec threadSample (by decide) (by decide)).1
  rw [h]
  rfl

/-! ## C6: the one-level tree build -/

theorem oneLevel_fold (top : List Comment) :
    ∀ (l : List Comment) (m : Nat → List Comment) (q : Nat),
      (l.foldl (oneLevelStep top) m) q =
        m q ++ l.filter (fun r =>
          (r.parentId == some q) && (commentIds top).contains q) := by
  intro l
  induction l with
  | nil => intro m q; simp
  | cons r l ih =>
    intro m q
    rw [List.foldl_cons, ih]
    cases hrp : r.parentId with
    | none => simp [oneLevelStep, hrp, List.filter_cons]
    | some p =>
      by_cases hm : p ∈ commentIds top
      · by_cases hq : q = p
        · subst hq
          simp [oneLevelStep, hrp, hm, List.filter_cons]
        · simp [oneLevelStep, hrp, hm, List.filter_cons, hq, Ne.symm hq]
      · by_cases hq : q = p
        · subst hq
          simp [oneLevelStep, hrp, hm, List.filter_cons]
        · simp [oneLevelStep, hrp, hm, List.filter_cons, Ne.symm hq]

theorem depthList_of_leaves (rs : List Comment) :
    CTree.depthList (rs.map (fun r => CTree.node r [])) ≤ 1 := by
  induction rs with
  | nil => simp [CTree.depthList]
  | cons r rs ih =>
    rw [List.map_cons, CTree.depthList]
    have h1 : CTree.depth (CTree.node r []) = 1 := by
      rw [CTree.depth, CTree.depthList]
    rw [h1]
    omega

/-- C6: the one-level build attaches each reply to the top-level comment
carrying its parent id (in input order within each parent) and silently drops
replies whose parent id is not among the top-level ids or is null; the output
lists the top-level comments in input order and never nests deeper than one
level (tree depth at most 2). -/
theorem buildOneLevel_spec (top replies : List Comment)
    (_huniq : (commentIds top).Nodup) :
    (∀ q, attachReplies top replies q =
      if (commentIds top).contains q then
        replies.filter (fun r => r.parentId == some q)
      else []) ∧
    (∀ t ∈ buildOneLevel top replies, CTree.depth t ≤ 2) ∧
    ((buildOneLevel top replies).map CTree.root = top) ∧
    (∀ r ∈ replies, ∀ p, r.parentId = some p →
      (commentIds top).contains p = false →
      ∀ q, r ∉ attachReplies top replies q) ∧
    (∀ r ∈ replies, r.parentId = none →
      ∀ q, r ∉ attachReplies top replies q) := by
  have ha : ∀ q, attachReplies top replies q =
      if (commentIds top).contains q then
        replies.filter (fun r => r.parentId == some q)
      else [] := by
    intro q
    rw [attachReplies, oneLevel_fold]
    rw [List.nil_append]
    by_cases hq : (commentIds top).contains q
    · rw [if_pos hq]
      apply List.filter_congr
      intro r _hr
      have hq' : q ∈ commentIds top := by simpa [List.contains] using hq
      simp [hq']
    · rw [if_neg hq]
      rw [List.filter_eq_nil_iff]
      intro r _hr hcontra
      simp only [Bool.and_eq_true] at hcontra
      exact hq hcontra.2
  refine ⟨ha, ?_, ?_, ?_, ?_⟩
  · intro t ht
    rw [buildOneLevel] at ht
    rw [List.mem_map] at ht
    obtain ⟨c, _hc, rfl⟩ := ht
    rw [CTree.depth]
    have := depthList_of_leaves (attachReplies top replies c.id)
    omega
  · rw [buildOneLevel, List.map_map]
    have : (CTree.root ∘ fun c =>
        CTree.node c ((attachReplies top replies c.id).map
          (fun r => CTree.node r []))) = fun c => c := by
      funext c
      rfl
    rw [this, List.map_id']
  · intro r _hr p hrp hcont q hmem
    rw [ha q] at hmem
    by_cases hq : (commentIds top).contains q
    · rw [if_pos hq] at hmem
      rw [List.mem_filter] at hmem
      obtain ⟨_, hpq⟩ := hmem
      rw [hrp] at hpq
      simp only [beq_iff_eq, Option.some.injEq] at hpq
      rw [hpq] at hcont
      rw [hq] at hcont
      cases hcont
    · rw [if_neg hq] at hmem
      cases hmem
  · intro r _hr hrp q hmem
    rw [ha q] at hmem
    by_cases hq : (commentIds top).contains q
    · rw [if_pos hq] at hmem
      rw [List.mem_filter] at hmem
      obtain ⟨_, hpq⟩ := hmem
      rw [hrp] at hpq
      simp at hpq
    · rw [if_neg hq] at hmem
      cases hmem

theorem buildOneLevel_spec_witness :
    attachReplies
      [{ id := 1, postId := 1, userId := "a", content := "root",
         parentId := none }]
      [{ id := 2, postId := 1, userId := "b", content := "child",
         parentId := some 1 },
       { id := 3, postId := 1, userId := "d", content := "stray",
         parentId := some 9 }] 1 =
      [{ id := 2, postId := 1, userId := "b", content := "child",
         parentId := some 1 }] := by
  have h := (buildOneLevel_spec
    [{ id := 1, postId := 1, userId := "a", content := "root",
       parentId := none }]
    [{ id := 2, postId := 1, userId := "b", content := "child",
       parentId := some 1 },
     { id := 3, postId := 1, userId := "d", content := "stray",
       parentId := some 9 }] (by decide)).1 1
  rw [h]
  rfl

/-! ## C4: recursive subtree deletion -/

theorem mem_childIdsOf {cs : List Comment} {s : List Nat} {x : Nat} :
    x ∈ childIdsOf cs s ↔
      ∃ c ∈ cs, c.id = x ∧ ∃ p, c.parentId = some p ∧ p ∈ s := by
  rw [childIdsOf]
  rw [List.mem_map]
  constructor
  · rintro ⟨c, hcf, hid⟩
    rw [List.mem_filter] at hcf
    obtain ⟨hc, hf⟩ := hcf
    cases hcp : c.parentId with
    | none => rw [hcp] at hf; cases hf
    | some p =>
      rw [hcp] at hf
      exact ⟨c, hc, hid, p, hcp, by simpa [List.contains] using hf⟩
  · rintro ⟨c, hc, hid, p, hcp, hp⟩
    refine ⟨c, ?_, hid⟩
    rw [List.mem_filter]
    refine ⟨hc, ?_⟩
    rw [hcp]
    simpa [List.contains] using hp

theorem mem_growIds {cs : List Comment} {s : List Nat} {x : Nat} :
    x ∈ growIds cs s ↔ x ∈ s ∨ x ∈ childIdsOf cs s := by
  rw [growIds, List.mem_append, List.mem_filter]
  simp [List.contains]
  tauto

theorem subset_closureAux (cs : List Comment) :
    ∀ (n : Nat) (s : List Nat) (x : Nat), x ∈ s → x ∈ closureAux cs n s := by
  intro n
  induction n with
  | zero => intro s x hx; exact hx
  | succ n ih =>
    intro s x hx
    exact ih (growIds cs s) x (mem_growIds.mpr (Or.inl hx))

theorem closureAux_sound (cs : List Comment) (root : Nat) :
    ∀ (n : Nat) (s : List Nat),
      (∀ x ∈ s, ReachesFrom cs root x) →
      ∀ x ∈ closureAux cs n s, ReachesFrom cs root x := by
  intro n
  induction n with
  | zero => intro s hs x hx; exact hs x hx
  | succ n ih =>
    intro s hs x hx
    refine ih (growIds cs s) ?_ x hx
    intro y hy
    rcases mem_growIds.mp hy with h | h
    · exact hs y h
    · obtain ⟨c, hc, hid, p, hcp, hp⟩ := mem_childIdsOf.mp h
      subst hid
      exact ReachesFrom.step c p hc hcp (hs p hp)

theorem growIds_of_saturated {cs : List Comment} {s : List Nat}
    (h : SaturatedIds cs s) : growIds cs s = s := by
  rw [growIds]
  have hnil : (childIdsOf cs s).filter (fun i => !s.contains i) = [] := by
    rw [List.filter_eq_nil_iff]
    intro i hi
    obtain ⟨c, hc, hid, p, hcp, hp⟩ := mem_childIdsOf.mp hi
    subst hid
    have := h c hc p hcp hp
    simp [List.contains, this]
  rw [hnil, List.append_nil]

theorem closureAux_of_saturated {cs : List Comment} (n : Nat) {s : List Nat}
    (h : SaturatedIds cs s) : closureAux cs n s = s := by
  induction n with
  | zero => rfl
  | succ n ih =>
    show closureAux cs n (growIds cs s) = s
    rw [growIds_of_saturated h]
    exact ih

theorem saturated_closureAux (cs : List Comment) :
    ∀ (n : Nat) (s : List Nat), idsLeft cs s ≤ n →
      SaturatedIds cs (closureAux cs n s) := by
  intro n
  induction n with
  | zero =>
    intro s hle
    intro c hc p hcp hp
    have h0 : (commentIds cs).dedup.filter (fun i => !s.contains i) = [] := by
      rw [idsLeft] at hle
      exact List.length_eq_zero.mp (Nat.le_zero.mp hle)
    by_contra hnot
    have hin : c.id ∈ (commentIds cs).dedup.filter (fun i => !s.contains i) := by
      rw [List.mem_filter]
      refine ⟨List.mem_dedup.mpr (List.mem_map_of_mem _ hc), ?_⟩
      simpa [List.contains] using hnot
    rw [h0] at hin
    cases hin
  | succ n ih =>
    intro s hle
    by_cases hsat : SaturatedIds cs s
    · show SaturatedIds cs (closureAux cs n (growIds cs s))
      rw [growIds_of_saturated hsat, closureAux_of_saturated n hsat]
      exact hsat
    · rw [SaturatedIds] at hsat
      push_neg at hsat
      obtain ⟨c, hc, p, hcp, hp, hcid⟩ := hsat
      have hgrow : c.id ∈ growIds cs s :=
        mem_growIds.mpr (Or.inr (mem_childIdsOf.mpr ⟨c, hc, rfl, p, hcp, hp⟩))
      have hsub : List.Sublist
          ((commentIds cs).dedup.filter (fun i => !(growIds cs s).contains i))
          ((commentIds cs).dedup.filter (fun i => !s.contains i)) := by
        apply List.monotone_filter_right
        intro a ha
        simp only [List.contains, Bool.not_eq_true', List.elem_eq_mem,
          decide_eq_false_iff_not] at ha ⊢
        intro hmem
        exact ha (mem_growIds.mpr (Or.inl hmem))
      have hBmem : c.id ∈ (commentIds cs).dedup.filter (fun i => !s.contains i) := by
        rw [List.mem_filter]
        refine ⟨List.mem_dedup.mpr (List.mem_map_of_mem _ hc), ?_⟩
        simpa [List.contains] using hcid
      have hAnot : c.id ∉
          (commentIds cs).dedup.filter (fun i => !(growIds cs s).contains i) := by
        rw [List.mem_filter]
        rintro ⟨_, hfa⟩
        simp only [List.contains, Bool.not_eq_true', List.elem_eq_mem,
          decide_eq_false_iff_not] at hfa
        exact hfa hgrow
      have hdec : idsLeft cs (growIds cs s) < idsLeft cs s := by
        rw [idsLeft, idsLeft]
        rcases Nat.lt_or_eq_of_le hsub.length_le with h | h
        · exact h
        · exfalso
          rw [hsub.eq_of_length h] at hAnot
          exact hAnot hBmem
      have hle2 : idsLeft cs (growIds cs s) ≤ n :=
        Nat.lt_succ_iff.mp (lt_of_lt_of_le hdec hle)
      show SaturatedIds cs (closureAux cs n (growIds cs s))
      exact ih (growIds cs s) hle2

theorem saturated_subtreeIds (cs : List Comment) (root : Nat) :
    SaturatedIds cs (subtreeIds cs root) := by
  rw [subtreeIds]
  apply saturated_closureAux
  rw [idsLeft]
  calc ((commentIds cs).dedup.filter
        (fun i => !((cs.filter (fun c => c.id == root)).map
          (fun c => c.id)).contains i)).length
      ≤ (commentIds cs).dedup.length := List.length_filter_le _ _
    _ ≤ (commentIds cs).length := (List.dedup_sublist _).length_le
    _ = cs.length := List.length_map _ _

theorem reaches_mem_subtreeIds {cs : List Comment} {root x : Nat}
    (h : ReachesFrom cs root x) : x ∈ subtreeIds cs root := by
  induction h with
  | base c hc hid =>
    rw [subtreeIds]
    apply subset_closureAux
    refine List.mem_map.mpr ⟨c, ?_, hid⟩
    rw [List.mem_filter]
    exact ⟨hc, by simp [hid]⟩
  | step c p hc hcp _ ih =>
    exact saturated_subtreeIds cs root c hc p hcp ih

theorem mem_subtreeIds_reaches {cs : List Comment} {root x : Nat}
    (h : x ∈ subtreeIds cs root) : ReachesFrom cs root x := by
  rw [subtreeIds] at h
  refine closureAux_sound cs root _ _ ?_ x h
  intro y hy
  obtain ⟨c, hcf, hid⟩ := List.mem_map.mp hy
  rw [List.mem_filter] at hcf
  obtain ⟨hc, hbeq⟩ := hcf
  have hroot : c.id = root := by simpa using hbeq
  rw [← hid, hroot]
  exact ReachesFrom.base c hc hroot

/-- C4: the recursive delete removes exactly the comments transitively
reachable from the requested id along `parentId` chains (the requested
comment and its descendants, nothing else); when no comment has that id the
store is returned unchanged, and running the delete twice equals running it
once. -/
theorem deleteSubtree_spec (cs : List Comment) (root : Nat) :
    (∀ c, c ∈ deleteSubtree cs root ↔ c ∈ cs ∧ ¬ ReachesFrom cs root c.id) ∧
    ((∀ c ∈ cs, c.id ≠ root) → deleteSubtree cs root = cs) ∧
    deleteSubtree (deleteSubtree cs root) root = deleteSubtree cs root := by
  have hmain : ∀ (l : List Comment) (c : Comment),
      c ∈ deleteSubtree l root ↔ c ∈ l ∧ ¬ ReachesFrom l root c.id := by
    intro l c
    rw [deleteSubtree, List.mem_filter]
    constructor
    · rintro ⟨hc, hf⟩
      refine ⟨hc, fun hr => ?_⟩
      simp only [List.contains, Bool.not_eq_true', List.elem_eq_mem,
        decide_eq_false_iff_not] at hf
      exact hf (reaches_mem_subtreeIds hr)
    · rintro ⟨hc, hnr⟩
      refine ⟨hc, ?_⟩
      simp only [List.contains, Bool.not_eq_true', List.elem_eq_mem,
        decide_eq_false_iff_not]
      intro hmem
      exact hnr (mem_subtreeIds_reaches hmem)
  have hnoop : ∀ (l : List Comment), (∀ c ∈ l, c.id ≠ root) →
      deleteSubtree l root = l := by
    intro l h
    have hseed : (l.filter (fun c => c.id == root)).map (fun c => c.id) = [] := by
      rw [List.map_eq_nil_iff]
      rw [List.filter_eq_nil_iff]
      intro c hc
      simpa using h c hc
    have hclos : ∀ n, closureAux l n ([] : List Nat) = [] := by
      intro n
      apply closureAux_of_saturated
      intro c _ p _ hp
      cases hp
    rw [deleteSubtree, subtreeIds, hseed, hclos]
    apply List.filter_eq_self.mpr
    intro c _
    simp [List.contains]
  refine ⟨hmain cs, hnoop cs, ?_⟩
  apply hnoop
  intro c hc hcid
  rw [hmain cs c] at hc
  obtain ⟨hcs, hnr⟩ := hc
  refine hnr ?_
  rw [hcid]
  exact ReachesFrom.base c hcs hcid

theorem deleteSubtree_spec_witness :
    deleteSubtree threadSample 7 = threadSample :=
  (deleteSubtree_spec threadSample 7).2.1 (by decide)

end SpaceAnon
